import Mathlib

/-!
Verification development for the econodes repository.

The repository has two variants of a dependency-graph application:

* Expression mode (src/src/main.ts): each node carries a `valueExpression`
  string that may reference other nodes by quoted label.  Edges are derived
  from the expressions (`updateEdges`), values are resolved by
  `evaluateValueString` (substitution + JavaScript `eval`), and `updateNode`
  is the central mutation.

* Typed-edge mode (src/unnamed/part_000 and src/incrementor/src/main.ts):
  edges are first-class, carry a `type` (increment/decrement), and values
  are propagated stepwise by the `pushImpulsesDownstream` case of
  `updateApp`.

The embedding below translates the relevant functions directly from the
TypeScript source.  JavaScript numbers are modelled as extended rationals
(finite rational, NaN, +Infinity, -Infinity, undefined); this is exact for
the integer arithmetic and the division-by-zero behaviour exercised here
(double rounding on non-integral values is not relevant to any claim).
In-place mutation is modelled by explicit state passing; a thrown exception
(e.g. a TypeError from calling a method on `undefined`, or an exception
escaping `eval`) is modelled by an `Except` error that carries the
partially mutated state, since the TypeScript code mutates shared objects
in place before the throw.
-/

/-!
Rational arithmetic.  Batteries marks `Rat.add` and friends
`@[irreducible]`, which blocks evaluation of the embedded program on
concrete inputs by `decide`.  The wrappers below implement the same
operations through the reducible smart constructor `mkRat`; the bridge
lemmas show they agree with the standard operations.
-/

/-- Rational addition through `mkRat` (kernel-computable). -/
def ratAdd (a b : ℚ) : ℚ := mkRat (a.num * b.den + b.num * a.den) (a.den * b.den)

/-- Rational subtraction through `mkRat` (kernel-computable). -/
def ratSub (a b : ℚ) : ℚ := mkRat (a.num * b.den - b.num * a.den) (a.den * b.den)

/-- Rational multiplication through `mkRat` (kernel-computable). -/
def ratMul (a b : ℚ) : ℚ := mkRat (a.num * b.num) (a.den * b.den)

/-- Rational inverse through `Rat.divInt` (kernel-computable). -/
def ratInv (a : ℚ) : ℚ := Rat.divInt a.den a.num

/-- Rational division through `mkRat` (kernel-computable). -/
def ratDiv (a b : ℚ) : ℚ := ratMul a (ratInv b)

/-- Rational negation through `mkRat` (kernel-computable). -/
def ratNeg (a : ℚ) : ℚ := mkRat (-a.num) a.den

theorem ratAdd_eq (a b : ℚ) : ratAdd a b = a + b := (Rat.add_def' a b).symm

theorem ratSub_eq (a b : ℚ) : ratSub a b = a - b := (Rat.sub_def' a b).symm

theorem ratNeg_eq (a : ℚ) : ratNeg a = -a := by
  rw [ratNeg, ← Rat.neg_mkRat, Rat.mkRat_self]

/-- Model of a JavaScript number value: a finite rational, NaN,
positive or negative infinity, or the `undefined` value (which arises as
the result of `eval` on an empty expression). -/
inductive JSNum where
  | num (q : ℚ)
  | nan
  | inf
  | negInf
  | undef
deriving DecidableEq, Repr

/-- JavaScript addition on numbers.  `NaN` and `undefined` (which coerces
to `NaN`) are absorbing; opposite infinities give `NaN`. -/
def jsAdd : JSNum → JSNum → JSNum
  | JSNum.num a, JSNum.num b => JSNum.num (ratAdd a b)
  | JSNum.inf, JSNum.negInf => JSNum.nan
  | JSNum.negInf, JSNum.inf => JSNum.nan
  | JSNum.inf, JSNum.inf => JSNum.inf
  | JSNum.negInf, JSNum.negInf => JSNum.negInf
  | JSNum.inf, JSNum.num _ => JSNum.inf
  | JSNum.num _, JSNum.inf => JSNum.inf
  | JSNum.negInf, JSNum.num _ => JSNum.negInf
  | JSNum.num _, JSNum.negInf => JSNum.negInf
  | _, _ => JSNum.nan

/-- JavaScript subtraction on numbers. -/
def jsSub : JSNum → JSNum → JSNum
  | JSNum.num a, JSNum.num b => JSNum.num (ratSub a b)
  | JSNum.inf, JSNum.inf => JSNum.nan
  | JSNum.negInf, JSNum.negInf => JSNum.nan
  | JSNum.inf, JSNum.negInf => JSNum.inf
  | JSNum.negInf, JSNum.inf => JSNum.negInf
  | JSNum.inf, JSNum.num _ => JSNum.inf
  | JSNum.num _, JSNum.inf => JSNum.negInf
  | JSNum.negInf, JSNum.num _ => JSNum.negInf
  | JSNum.num _, JSNum.negInf => JSNum.inf
  | _, _ => JSNum.nan

/-- JavaScript multiplication on numbers.  Infinity times zero is `NaN`. -/
def jsMul : JSNum → JSNum → JSNum
  | JSNum.num a, JSNum.num b => JSNum.num (ratMul a b)
  | JSNum.inf, JSNum.num b =>
      if b = 0 then JSNum.nan else if b > 0 then JSNum.inf else JSNum.negInf
  | JSNum.num a, JSNum.inf =>
      if a = 0 then JSNum.nan else if a > 0 then JSNum.inf else JSNum.negInf
  | JSNum.negInf, JSNum.num b =>
      if b = 0 then JSNum.nan else if b > 0 then JSNum.negInf else JSNum.inf
  | JSNum.num a, JSNum.negInf =>
      if a = 0 then JSNum.nan else if a > 0 then JSNum.negInf else JSNum.inf
  | JSNum.inf, JSNum.inf => JSNum.inf
  | JSNum.negInf, JSNum.negInf => JSNum.inf
  | JSNum.inf, JSNum.negInf => JSNum.negInf
  | JSNum.negInf, JSNum.inf => JSNum.negInf
  | _, _ => JSNum.nan

/-- JavaScript division on numbers.  Division of a nonzero finite number by
zero yields a signed infinity, `0/0` yields `NaN` (negative zero is not
modelled; it does not arise in the program's data). -/
def jsDiv : JSNum → JSNum → JSNum
  | JSNum.num a, JSNum.num b =>
      if b = 0 then
        (if a = 0 then JSNum.nan else if a > 0 then JSNum.inf else JSNum.negInf)
      else JSNum.num (ratDiv a b)
  | JSNum.num _, JSNum.inf => JSNum.num 0
  | JSNum.num _, JSNum.negInf => JSNum.num 0
  | JSNum.inf, JSNum.num b => if b ≥ 0 then JSNum.inf else JSNum.negInf
  | JSNum.negInf, JSNum.num b => if b ≥ 0 then JSNum.negInf else JSNum.inf
  | _, _ => JSNum.nan

/-- JavaScript unary minus. -/
def jsNeg : JSNum → JSNum
  | JSNum.num a => JSNum.num (ratNeg a)
  | JSNum.inf => JSNum.negInf
  | JSNum.negInf => JSNum.inf
  | _ => JSNum.nan

/-- JavaScript unary plus (numeric coercion; identity on numbers,
`NaN` on `undefined`). -/
def jsUnaryPlus : JSNum → JSNum
  | JSNum.num a => JSNum.num a
  | JSNum.inf => JSNum.inf
  | JSNum.negInf => JSNum.negInf
  | _ => JSNum.nan

/-- A finite JavaScript number, i.e. neither `NaN` nor infinite nor
`undefined`. -/
def JSNum.isFinite : JSNum → Bool
  | JSNum.num _ => true
  | _ => false

/-- String form of a number as produced by JavaScript string coercion
(`matches[part] + ''` in `substitute`).  Exact for integers, which are the
only values the verified scenarios feed through it. -/
def jsNumToString : JSNum → String
  | JSNum.num q => if q.den = 1 then toString q.num else toString q
  | JSNum.nan => "NaN"
  | JSNum.inf => "Infinity"
  | JSNum.negInf => "-Infinity"
  | JSNum.undef => "undefined"

/-!
Model of JavaScript `eval` restricted to the arithmetic strings the program
produces: numeric literals, parentheses, unary and binary `+` `-` and
binary `*` `/`, with conventional precedence and left associativity.
A string that does not parse models `eval` throwing a `SyntaxError`; the
empty (or all-whitespace) string evaluates to `undefined`, as in
JavaScript.  The parser uses explicit fuel; the top-level entry point
supplies fuel that is ample for its token list, so fuel exhaustion never
occurs on the concrete inputs evaluated below.
-/

/-- Tokens of the arithmetic expression language fed to `eval`. -/
inductive Tok where
  | num (q : ℚ)
  | plus
  | minus
  | star
  | slash
  | lparen
  | rparen
deriving DecidableEq, Repr

/-- Numeric value of a list of decimal digit characters. -/
def digitsToNat (ds : List Char) : Nat :=
  ds.foldl (fun a c => a * 10 + (c.toNat - 48)) 0

/-- Rational value of a JavaScript numeric literal with integer digits
`ds` and fractional digits `fs` (so `1.5` has `ds = [1]`, `fs = [5]`). -/
def literalValue (ds fs : List Char) : ℚ :=
  ratAdd (mkRat (digitsToNat ds) 1) (mkRat (digitsToNat fs) (10 ^ fs.length))

/-- Tokenizer for arithmetic strings (fuelled; one unit of fuel per
produced token or skipped space suffices). -/
def lexChars : Nat → List Char → Except Unit (List Tok)
  | 0, _ => Except.error ()
  | fuel + 1, cs =>
    match cs with
    | [] => Except.ok []
    | c :: rest =>
      if c = ' ' then lexChars fuel rest
      else if c = '+' then (lexChars fuel rest).map (fun ts => Tok.plus :: ts)
      else if c = '-' then (lexChars fuel rest).map (fun ts => Tok.minus :: ts)
      else if c = '*' then (lexChars fuel rest).map (fun ts => Tok.star :: ts)
      else if c = '/' then (lexChars fuel rest).map (fun ts => Tok.slash :: ts)
      else if c = '(' then (lexChars fuel rest).map (fun ts => Tok.lparen :: ts)
      else if c = ')' then (lexChars fuel rest).map (fun ts => Tok.rparen :: ts)
      else if c.isDigit then
        let ds := cs.takeWhile Char.isDigit
        let rest1 := cs.dropWhile Char.isDigit
        match rest1 with
        | '.' :: rest2 =>
          let fs := rest2.takeWhile Char.isDigit
          let rest3 := rest2.dropWhile Char.isDigit
          (lexChars fuel rest3).map (fun ts => Tok.num (literalValue ds fs) :: ts)
        | _ =>
          (lexChars fuel rest1).map (fun ts => Tok.num (literalValue ds []) :: ts)
      else if c = '.' then
        let fs := rest.takeWhile Char.isDigit
        let rest1 := rest.dropWhile Char.isDigit
        if fs = [] then Except.error ()
        else (lexChars fuel rest1).map (fun ts => Tok.num (literalValue [] fs) :: ts)
      else Except.error ()

/-- Tokenize a string, with ample fuel. -/
def lexString (s : String) : Except Unit (List Tok) :=
  lexChars (s.length + 1) s.data

/-- Parse a factor: a literal, a parenthesized expression (parsed by the
supplied continuation `pExpr`), or a unary sign applied to a factor. -/
def parseFactorF (pExpr : List Tok → Except Unit (JSNum × List Tok)) :
    Nat → List Tok → Except Unit (JSNum × List Tok)
  | 0, _ => Except.error ()
  | fuel + 1, toks =>
    match toks with
    | Tok.num q :: rest => Except.ok (JSNum.num q, rest)
    | Tok.minus :: rest =>
      (parseFactorF pExpr fuel rest).map (fun vr => (jsNeg vr.1, vr.2))
    | Tok.plus :: rest =>
      (parseFactorF pExpr fuel rest).map (fun vr => (jsUnaryPlus vr.1, vr.2))
    | Tok.lparen :: rest =>
      match pExpr rest with
      | Except.ok (v, Tok.rparen :: r2) => Except.ok (v, r2)
      | _ => Except.error ()
    | _ => Except.error ()

/-- Parse the `* factor` / `/ factor` continuation of a term,
left-associatively. -/
def parseTermRestF (pFactor : List Tok → Except Unit (JSNum × List Tok)) :
    Nat → JSNum → List Tok → Except Unit (JSNum × List Tok)
  | 0, _, _ => Except.error ()
  | fuel + 1, acc, toks =>
    match toks with
    | Tok.star :: rest =>
      match pFactor rest with
      | Except.ok (v, r) => parseTermRestF pFactor fuel (jsMul acc v) r
      | Except.error _ => Except.error ()
    | Tok.slash :: rest =>
      match pFactor rest with
      | Except.ok (v, r) => parseTermRestF pFactor fuel (jsDiv acc v) r
      | Except.error _ => Except.error ()
    | _ => Except.ok (acc, toks)

/-- Parse the `+ term` / `- term` continuation of an expression,
left-associatively. -/
def parseExprRestF (pTerm : List Tok → Except Unit (JSNum × List Tok)) :
    Nat → JSNum → List Tok → Except Unit (JSNum × List Tok)
  | 0, _, _ => Except.error ()
  | fuel + 1, acc, toks =>
    match toks with
    | Tok.plus :: rest =>
      match pTerm rest with
      | Except.ok (v, r) => parseExprRestF pTerm fuel (jsAdd acc v) r
      | Except.error _ => Except.error ()
    | Tok.minus :: rest =>
      match pTerm rest with
      | Except.ok (v, r) => parseExprRestF pTerm fuel (jsSub acc v) r
      | Except.error _ => Except.error ()
    | _ => Except.ok (acc, toks)

/-- Parse a full expression.  Recursion on fuel; one unit of fuel is
consumed per parenthesis nesting level, and the inner loops receive the
same fuel, which bounds their iteration count. -/
def parseExpr : Nat → List Tok → Except Unit (JSNum × List Tok)
  | 0, _ => Except.error ()
  | fuel + 1, toks =>
    let pFactor := parseFactorF (parseExpr fuel) (fuel + 1)
    let pTerm := fun ts =>
      match pFactor ts with
      | Except.ok (v, r) => parseTermRestF pFactor fuel v r
      | Except.error _ => Except.error ()
    match pTerm toks with
    | Except.ok (v, r) => parseExprRestF pTerm fuel v r
    | Except.error _ => Except.error ()

/-- Model of `eval(substitutedString)` (src/src/main.ts line 125) on the
arithmetic strings the program produces.  `Except.error` models `eval`
throwing; an empty expression yields `undefined`. -/
def evalArith (s : String) : Except Unit JSNum :=
  match lexString s with
  | Except.error _ => Except.error ()
  | Except.ok [] => Except.ok JSNum.undef
  | Except.ok toks =>
    match parseExpr (2 * toks.length + 4) toks with
    | Except.ok (v, []) => Except.ok v
    | _ => Except.error ()

/-- Decidable equality for `Except`, used to evaluate the embedded
functions on concrete inputs. -/
instance exceptDecEq {ε α : Type} [DecidableEq ε] [DecidableEq α] :
    DecidableEq (Except ε α) := fun x y =>
  match x, y with
  | Except.ok a, Except.ok b =>
    if h : a = b then isTrue (by rw [h]) else
      isFalse (by intro hc; injection hc; exact h (by assumption))
  | Except.error a, Except.error b =>
    if h : a = b then isTrue (by rw [h]) else
      isFalse (by intro hc; injection hc; exact h (by assumption))
  | Except.ok _, Except.error _ => isFalse (by intro hc; injection hc)
  | Except.error _, Except.ok _ => isFalse (by intro hc; injection hc)

/-!
Expression mode (src/src/main.ts).  A node carries a `valueExpression`
whose quoted substrings reference other nodes by label.
-/

/-- Node of the expression-mode graph (src/src/main.ts lines 20-27). -/
structure Node where
  id : Int
  x : ℚ
  y : ℚ
  label : String
  valueExpression : String
  value : JSNum
deriving DecidableEq, Repr

/-- Derived edge of the expression-mode graph (src/src/main.ts
lines 29-32). -/
structure Edge where
  source : Int
  target : Int
deriving DecidableEq, Repr

/-- Expression-mode graph (src/src/main.ts lines 34-37). -/
structure Graph where
  nodes : List Node
  edges : List Edge
deriving DecidableEq, Repr

/-- Character-level loop of `extractLabels` (src/src/main.ts lines 82-98):
`none` models `currentLabel === undefined`; the accumulated characters of
an open quoted region are kept in reverse. -/
def extractLabelsGo : List Char → Option (List Char) → List String
  | [], _ => []
  | c :: rest, none =>
    if c = '"' then extractLabelsGo rest (some []) else extractLabelsGo rest none
  | c :: rest, some cur =>
    if c = '"' then String.mk cur.reverse :: extractLabelsGo rest none
    else extractLabelsGo rest (some (c :: cur))

/-- Model of `extractLabels` (src/src/main.ts lines 82-98): the ordered
list of quoted substrings; an unterminated quoted region yields nothing. -/
def extractLabels (valueString : String) : List String :=
  extractLabelsGo valueString.data none

/-- Model of JavaScript `split` on the double-quote character: the list of
(possibly empty) fragments between quotes. -/
def splitOnQuote : List Char → List (List Char)
  | [] => [[]]
  | c :: rest =>
    if c = '"' then [] :: splitOnQuote rest
    else
      match splitOnQuote rest with
      | [] => [[c]]
      | p :: ps => (c :: p) :: ps

/-- Lookup in the `matchedValues` object: JavaScript `part in matches` /
`matches[part]`. -/
def lookupMatch (ms : List (String × JSNum)) (k : String) : Option JSNum :=
  (ms.find? (fun kv => kv.1 == k)).map (fun kv => kv.2)

/-- Assignment `matches[label] = v` on the object model: replace the first
binding of the key, or append a new one. -/
def setMatch : List (String × JSNum) → String → JSNum → List (String × JSNum)
  | [], k, v => [(k, v)]
  | kv :: rest, k, v =>
    if kv.1 == k then (k, v) :: rest else kv :: setMatch rest k v

/-- Model of `substitute` (src/src/main.ts lines 100-110): split on
quotes, drop empty fragments, replace each fragment that is a key of
`matches` by the string form of its value, join. -/
def substitute (valueString : String) (ms : List (String × JSNum)) : String :=
  let parts := (splitOnQuote valueString.data).filter (fun p => p ≠ [])
  let substitutedParts := parts.map (fun part =>
    match lookupMatch ms (String.mk part) with
    | some v => (jsNumToString v).data
    | none => part)
  String.mk substitutedParts.flatten

/-- Errors with which an evaluation can abort.  `typeError` models the
TypeError thrown when `graph.nodes.find(...)!` yields `undefined` and a
property of it is accessed; `evalThrow` models an exception escaping
`eval`; `outOfFuel` is the fuel bound of the embedding and models
non-termination of the unguarded recursion. -/
inductive EvalErr where
  | typeError
  | evalThrow
  | outOfFuel
deriving DecidableEq, Repr

/-- The `for (const label of labels)` loop of `evaluateValueString`
(src/src/main.ts lines 115-123), building `matchedValues`.  The recursive
resolution of a referenced node's expression is supplied as the function
parameter `evalF`, so that the loop is structurally recursive on the label
list. -/
def resolveLabelsF (evalF : String → Except EvalErr JSNum) (graph : Graph)
    (recursive : Bool) : List String → List (String × JSNum) →
    Except EvalErr (List (String × JSNum))
  | [], matchedValues => Except.ok matchedValues
  | label :: rest, matchedValues =>
    match graph.nodes.find? (fun n => n.label == label) with
    | none => Except.error EvalErr.typeError
    | some node =>
      if recursive then
        match evalF node.valueExpression with
        | Except.error e => Except.error e
        | Except.ok v => resolveLabelsF evalF graph recursive rest (setMatch matchedValues label v)
      else resolveLabelsF evalF graph recursive rest (setMatch matchedValues label node.value)

/-- Model of `evaluateValueString` (src/src/main.ts lines 112-127): extract
the labels, resolve each one (recursively through the referenced node's own
expression when `recursive`, else from its cached `value`), substitute, and
evaluate with `eval`.  The source has no cycle guard, so the recursion is
bounded here by explicit fuel, structurally; exhausted fuel models
unbounded recursion. -/
def evaluateValueString : Nat → String → Graph → Bool → Except EvalErr JSNum
  | 0, _, _, _ => Except.error EvalErr.outOfFuel
  | fuel + 1, valueString, graph, recursive =>
    match resolveLabelsF (fun t => evaluateValueString fuel t graph recursive)
        graph recursive (extractLabels valueString) [] with
    | Except.error e => Except.error e
    | Except.ok matchedValues =>
      match evalArith (substitute valueString matchedValues) with
      | Except.ok v => Except.ok v
      | Except.error _ => Except.error EvalErr.evalThrow

/-- Model of `updateEdges` (src/src/main.ts lines 71-80): clear the edges,
then for every node and every extracted label reference, emit an edge from
the first node carrying that label (if any) to the scanning node. -/
def updateEdges (graph : Graph) : Graph :=
  { graph with
    edges := (graph.nodes.map (fun targetNode =>
      (extractLabels targetNode.valueExpression).filterMap (fun label =>
        (graph.nodes.find? (fun n => n.label == label)).map (fun sourceNode =>
          { source := sourceNode.id, target := targetNode.id })))).flatten }

/-- The mutation `originalNode = Object.assign(originalNode, updatedNode)`
(src/src/main.ts line 55): the first node whose id matches takes all of
the updated node's fields. -/
def assignNode : List Node → Node → List Node
  | [], _ => []
  | n :: rest, u => if n.id == u.id then u :: rest else n :: assignNode rest u

/-- The mutation `originalNode.value = v` (src/src/main.ts line 68) on the
first node with the given id. -/
def setNodeValue : List Node → Int → JSNum → List Node
  | [], _, _ => []
  | n :: rest, i, v =>
    if n.id == i then { n with value := v } :: rest else n :: setNodeValue rest i v

/-- Model of `updateNode` (src/src/main.ts lines 51-69).  The label-rewrite
loop at lines 57-62 calls `String.replace` but discards its result (and
compares against the already-overwritten label), so it changes no state and
is a no-op here.  The final `evaluateValueString` call is non-recursive, so
fuel 1 is always sufficient for it.  An error result models the exception
escaping `updateNode` uncaught, carrying the state mutated so far (the
source mutates the shared graph in place). -/
def updateNode (updatedNode : Node) (graph : Graph) : Except (EvalErr × Graph) Graph :=
  match graph.nodes.find? (fun n => n.id == updatedNode.id) with
  | none => Except.error (EvalErr.typeError, graph)
  | some _ =>
    let g1 : Graph := { graph with nodes := assignNode graph.nodes updatedNode }
    let g2 := updateEdges g1
    match evaluateValueString 1 updatedNode.valueExpression g2 false with
    | Except.error e => Except.error (e, g2)
    | Except.ok v => Except.ok { g2 with nodes := setNodeValue g2.nodes updatedNode.id v }

/-- Model of the `deleteNode` case of expression-mode `updateApp`
(src/src/main.ts lines 236-241): drop the node and every edge incident to
it. -/
def deleteNodeE (id : Int) (graph : Graph) : Graph :=
  { nodes := graph.nodes.filter (fun d => d.id != id),
    edges := (graph.edges.filter (fun e => e.target != id)).filter (fun e => e.source != id) }

/-- Model of the `createNode` case of expression-mode `updateApp`
(src/src/main.ts lines 243-247): evaluate the new node's expression
non-recursively, store the result in its `value`, and append it. -/
def createNodeE (node : Node) (graph : Graph) : Except (EvalErr × Graph) Graph :=
  match evaluateValueString 1 node.valueExpression graph false with
  | Except.error e => Except.error (e, graph)
  | Except.ok v => Except.ok { graph with nodes := graph.nodes ++ [{ node with value := v }] }

/-- Model of the `moveNode` case of expression-mode `updateApp`
(src/src/main.ts lines 228-234): every node whose id matches is replaced
wholesale by the event's node. -/
def moveNodeE (node : Node) (graph : Graph) : Graph :=
  { graph with nodes := graph.nodes.map (fun n => if n.id == node.id then node else n) }

/-- The id chosen by the `#nodeCreate` click handler (src/src/main.ts
line 325): one more than the maximum live id, or 1 for an empty graph. -/
def freshId (graph : Graph) : Int :=
  match graph.nodes.map (fun n => n.id) with
  | [] => 1
  | i :: is => is.foldl max i + 1

/-- The node constructed by the `#nodeCreate` click handler
(src/src/main.ts lines 321-333). -/
def defaultNode (graph : Graph) : Node :=
  { id := freshId graph, label := "New node", value := JSNum.num 1,
    valueExpression := "1", x := mkRat 1 2, y := mkRat 1 2 }

/-- The `#nodeCreate` click handler followed by the `createNode` event
(src/src/main.ts lines 321-333 and 243-247). -/
def nodeCreateClick (graph : Graph) : Except (EvalErr × Graph) Graph :=
  createNodeE (defaultNode graph) graph

/-!
Typed-edge mode (src/unnamed/part_000; src/incrementor/src/main.ts is
identical in the modelled parts).  Edges are first-class with a `type`,
and values are propagated along them stepwise via an impulse set.
-/

/-- Edge kind of the typed-edge variant (src/unnamed/part_000 line 25). -/
inductive EdgeType where
  | increment
  | decrement
deriving DecidableEq, Repr, BEq

/-- Node of the typed-edge graph (src/unnamed/part_000 lines 13-19). -/
structure TNode where
  id : Int
  x : ℚ
  y : ℚ
  label : String
  value : ℚ
deriving DecidableEq, Repr

/-- Typed edge (src/unnamed/part_000 lines 21-26). -/
structure TEdge where
  id : Int
  source : Int
  target : Int
  type : EdgeType
deriving DecidableEq, Repr

/-- Typed-edge graph (src/unnamed/part_000 lines 28-31). -/
structure TGraph where
  nodes : List TNode
  edges : List TEdge
deriving DecidableEq, Repr

/-- Application state of the typed-edge variant (src/unnamed/part_000
lines 108-112); the `selected` element only drives form rendering and is
not modelled. -/
structure TAppState where
  data : TGraph
  impulses : List Int
deriving DecidableEq, Repr

/-- Events accepted by typed-edge `updateApp` (src/unnamed/part_000
lines 91-106); selection, init and export events do not change the
modelled state. -/
inductive TEvent where
  | init
  | selectNode (node : Option TNode)
  | moveNode (node : TNode)
  | renameNode (node : TNode)
  | incrementNode (node : TNode)
  | decrementNode (node : TNode)
  | deleteNode (node : TNode)
  | createNode (node : TNode)
  | pushImpulsesDownstream
  | removeImpulses
  | selectEdge (edge : Option TEdge)
  | updateEdge (edge : TEdge)
  | deleteEdge (edge : TEdge)
  | createEdge (edge : TEdge)
  | exportGraph
deriving DecidableEq, Repr

/-- In-place mutation of the first node with the given id (the
`appState.data.nodes.find(...)` followed by field assignments used by
several `updateApp` cases). -/
def updateFirst (f : TNode → TNode) (i : Int) : List TNode → List TNode
  | [] => []
  | n :: rest => if n.id == i then f n :: rest else n :: updateFirst f i rest

/-- Worker of `jsUnique`, carrying the set of elements already seen. -/
def jsUniqueGo (seen : List Int) : List Int → List Int
  | [] => []
  | x :: xs =>
    if seen.contains x then jsUniqueGo seen xs
    else x :: jsUniqueGo (x :: seen) xs

/-- Model of `Array.from(new Set(lst))` (src/unnamed/part_000 lines 5-7):
de-duplication keeping the first occurrence of each element, in order. -/
def jsUnique (l : List Int) : List Int := jsUniqueGo [] l

/-- Delta applied by one typed edge (src/unnamed/part_000 lines 179-180). -/
def edgeDelta (t : EdgeType) : ℚ :=
  match t with
  | EdgeType.increment => 1
  | EdgeType.decrement => -1

/-- One iteration of the inner edge loop of `pushImpulsesDownstream`
(src/unnamed/part_000 lines 177-183): look up the target with
`getNodeById` (whose `!` makes a missing target a TypeError, modelled as
`none`) and apply the edge's delta to its value. -/
def applyConnection (g : TGraph) (e : TEdge) : Option TGraph :=
  match g.nodes.find? (fun n => n.id == e.target) with
  | none => none
  | some _ =>
    some { g with nodes := updateFirst (fun n => { n with value := ratAdd n.value (edgeDelta e.type) }) e.target g.nodes }

/-- The inner `for (const connection of downstreamConnections)` loop
(src/unnamed/part_000 lines 177-184), collecting pushed target ids; an
error carries the state mutated before the throw together with the ids
collected so far. -/
def pushConnections : TGraph → List TEdge → List Int →
    Except (TGraph × List Int) (TGraph × List Int)
  | g, [], acc => Except.ok (g, acc)
  | g, e :: rest, acc =>
    match applyConnection g e with
    | none => Except.error (g, acc)
    | some g1 => pushConnections g1 rest (acc ++ [e.target])

/-- The outer `for (const nodeId of appState.impulses)` loop
(src/unnamed/part_000 lines 175-184). -/
def pushImpulses : TGraph → List Int → List Int →
    Except (TGraph × List Int) (TGraph × List Int)
  | g, [], acc => Except.ok (g, acc)
  | g, i :: rest, acc =>
    match pushConnections g (g.edges.filter (fun e => e.source == i)) acc with
    | Except.error r => Except.error r
    | Except.ok (g1, acc1) => pushImpulses g1 rest acc1

/-- Model of the `pushImpulsesDownstream` case of `updateApp`
(src/unnamed/part_000 lines 173-186).  On success the impulse list is
replaced by the de-duplicated collected targets; on a throw
(`Except.error`) the assignment `appState.impulses = unique(newImpulses)`
is never reached, so only the partially mutated graph escapes. -/
def pushStep (g : TGraph) (impulses : List Int) : Except TGraph (TGraph × List Int) :=
  match pushImpulses g impulses [] with
  | Except.error (g1, _) => Except.error g1
  | Except.ok (g1, newImpulses) => Except.ok (g1, jsUnique newImpulses)

/-- Model of the state-changing step of typed-edge `updateApp`
(src/unnamed/part_000 lines 127-228).  An `Except.error` result models an
uncaught exception escaping the handler, carrying the state as mutated up
to the throw. -/
def updateApp (event : TEvent) (s : TAppState) : Except TAppState TAppState :=
  match event with
  | TEvent.init => Except.ok s
  | TEvent.selectNode _ => Except.ok s
  | TEvent.selectEdge _ => Except.ok s
  | TEvent.exportGraph => Except.ok s
  | TEvent.renameNode p =>
    match s.data.nodes.find? (fun n => n.id == p.id) with
    | none => Except.error s
    | some _ =>
      Except.ok ({ s with data := { s.data with
        nodes := updateFirst (fun n => { n with label := p.label }) p.id s.data.nodes } })
  | TEvent.incrementNode p =>
    match s.data.nodes.find? (fun n => n.id == p.id) with
    | none => Except.error s
    | some _ =>
      let d1 : TGraph := { s.data with
        nodes := updateFirst (fun n => { n with value := ratAdd n.value 1 }) p.id s.data.nodes }
      Except.ok { data := d1, impulses := s.impulses ++ [p.id] }
  | TEvent.decrementNode p =>
    match s.data.nodes.find? (fun n => n.id == p.id) with
    | none => Except.error s
    | some _ =>
      let d1 : TGraph := { s.data with
        nodes := updateFirst (fun n => { n with value := ratSub n.value 1 }) p.id s.data.nodes }
      Except.ok { data := d1, impulses := s.impulses ++ [p.id] }
  | TEvent.moveNode p =>
    match s.data.nodes.find? (fun n => n.id == p.id) with
    | none => Except.error s
    | some _ =>
      Except.ok ({ s with data := { s.data with
        nodes := updateFirst (fun n => { n with x := p.x, y := p.y }) p.id s.data.nodes } })
  | TEvent.deleteNode p =>
    Except.ok ({ s with data :=
      { nodes := s.data.nodes.filter (fun d => d.id != p.id),
        edges := ((s.data.edges.filter (fun e => e.target != p.id)).filter
          (fun e => e.source != p.id)) } })
  | TEvent.createNode p =>
    Except.ok { s with data := { s.data with nodes := s.data.nodes ++ [p] } }
  | TEvent.pushImpulsesDownstream =>
    match pushStep s.data s.impulses with
    | Except.error g1 => Except.error { s with data := g1 }
    | Except.ok (g1, newImpulses) => Except.ok { data := g1, impulses := newImpulses }
  | TEvent.removeImpulses => Except.ok { s with impulses := [] }
  | TEvent.createEdge e =>
    Except.ok ({ s with data := { s.data with edges := s.data.edges ++ [e] } })
  | TEvent.deleteEdge e =>
    Except.ok ({ s with data := { s.data with
      edges := s.data.edges.filter (fun e1 => e1.source != e.source || e1.target != e.target) } })
  | TEvent.updateEdge e =>
    Except.ok ({ s with data := { s.data with
      edges := s.data.edges.map (fun edge => if edge.id == e.id then e else edge) } })

/-!
Concrete scenario data from the source (src/src/main.ts lines 39-49) and
the scenarios named by the specification.
-/

/-- Expression of node A in the sample data. -/
def exprOne : String := "1"

/-- Expression of node B in the sample data: references A. -/
def exprB : String := "\"A\" + 1"

/-- Expression of node C in the sample data: references B. -/
def exprC : String := "\"B\" + 1"

/-- A bare reference to label A. -/
def exprRefA : String := "\"A\""

/-- A bare reference to label B. -/
def exprRefB : String := "\"B\""

/-- A division by zero, fully substituted. -/
def exprDivZero : String := "1/0"

/-- Zero divided by zero, fully substituted. -/
def exprZeroDivZero : String := "0/0"

/-- The empty expression-mode graph. -/
def emptyG : Graph := { nodes := [], edges := [] }

/-- Node A of the sample data (src/src/main.ts line 41). -/
def nodeA : Node :=
  { id := 1, x := mkRat 1 2, y := mkRat 1 4, label := "A",
    valueExpression := exprOne, value := JSNum.num 1 }

/-- Node B of the sample data (src/src/main.ts line 42). -/
def nodeB : Node :=
  { id := 2, x := mkRat 1 4, y := mkRat 3 4, label := "B",
    valueExpression := exprB, value := JSNum.num 2 }

/-- Node C of the sample data (src/src/main.ts line 43). -/
def nodeC : Node :=
  { id := 3, x := mkRat 3 4, y := mkRat 3 4, label := "C",
    valueExpression := exprC, value := JSNum.num 3 }

/-- The sample graph (src/src/main.ts lines 39-49). -/
def dataGraph : Graph :=
  { nodes := [nodeA, nodeB, nodeC],
    edges := [{ source := 1, target := 2 }, { source := 2, target := 3 }] }

/-- The two-node scenario A("1"), B("A" + 1) with its derived edge. -/
def graphAB : Graph :=
  { nodes := [nodeA, nodeB], edges := [{ source := 1, target := 2 }] }

/-- Node A of the cyclic pair: its expression references B. -/
def cycNodeA : Node :=
  { id := 1, x := 0, y := 0, label := "A",
    valueExpression := exprRefB, value := JSNum.num 1 }

/-- Node B of the cyclic pair: its expression references A. -/
def cycNodeB : Node :=
  { id := 2, x := 0, y := 0, label := "B",
    valueExpression := exprRefA, value := JSNum.num 1 }

/-- The cyclic pair graph: A references B and B references A. -/
def cyclicGraph : Graph := { nodes := [cycNodeA, cycNodeB], edges := [] }

/-!
Claim C1.  The resolver of the source has no cycle guard: on the cyclic
pair, every recursion step consumes one unit of fuel and no amount of fuel
completes the evaluation, i.e. the recursion is unbounded and no
`CyclicDependency` condition exists anywhere in the code.
-/

/-- One-step unfolding of the resolver on the expression referencing B in
the cyclic graph; holds by definitional reduction of the concrete data. -/
theorem resolveStep_refB (n : Nat) :
    resolveLabelsF (fun t => evaluateValueString n t cyclicGraph true)
        cyclicGraph true ["B"] [] =
      (match evaluateValueString n exprRefA cyclicGraph true with
       | Except.error e => Except.error e
       | Except.ok v => Except.ok (setMatch [] "B" v)) := rfl

/-- One-step unfolding of the resolver on the expression referencing A in
the cyclic graph. -/
theorem resolveStep_refA (n : Nat) :
    resolveLabelsF (fun t => evaluateValueString n t cyclicGraph true)
        cyclicGraph true ["A"] [] =
      (match evaluateValueString n exprRefB cyclicGraph true with
       | Except.error e => Except.error e
       | Except.ok v => Except.ok (setMatch [] "A" v)) := rfl

/-- One-step unfolding of `evaluateValueString` at successor fuel on the
expression referencing B. -/
theorem evalStep_refB (n : Nat) :
    evaluateValueString (n + 1) exprRefB cyclicGraph true =
      (match resolveLabelsF (fun t => evaluateValueString n t cyclicGraph true)
          cyclicGraph true ["B"] [] with
       | Except.error e => Except.error e
       | Except.ok mv =>
         match evalArith (substitute exprRefB mv) with
         | Except.ok v => Except.ok v
         | Except.error _ => Except.error EvalErr.evalThrow) := rfl

/-- One-step unfolding of `evaluateValueString` at successor fuel on the
expression referencing A. -/
theorem evalStep_refA (n : Nat) :
    evaluateValueString (n + 1) exprRefA cyclicGraph true =
      (match resolveLabelsF (fun t => evaluateValueString n t cyclicGraph true)
          cyclicGraph true ["A"] [] with
       | Except.error e => Except.error e
       | Except.ok mv =>
         match evalArith (substitute exprRefA mv) with
         | Except.ok v => Except.ok v
         | Except.error _ => Except.error EvalErr.evalThrow) := rfl

/-- Claim C1: on the cyclic pair (A references B, B references A) the
recursive resolver of the source never terminates with any result: for
every fuel bound, evaluating either node's expression in recursive mode
exhausts the fuel.  The code recurses unboundedly and never produces a
`CyclicDependency` condition (no such condition exists in the code), so
the claimed behaviour is the specification's mandated correction of the
code, not what the code does. -/
theorem C1_cyclic_resolution_diverges (fuel : Nat) :
    evaluateValueString fuel cycNodeA.valueExpression cyclicGraph true
      = Except.error EvalErr.outOfFuel ∧
    evaluateValueString fuel cycNodeB.valueExpression cyclicGraph true
      = Except.error EvalErr.outOfFuel := by
  induction fuel with
  | zero => exact ⟨rfl, rfl⟩
  | succ n ih =>
    have h1 : evaluateValueString n exprRefB cyclicGraph true
        = Except.error EvalErr.outOfFuel := ih.1
    have h2 : evaluateValueString n exprRefA cyclicGraph true
        = Except.error EvalErr.outOfFuel := ih.2
    constructor
    · show evaluateValueString (n + 1) exprRefB cyclicGraph true = _
      rw [evalStep_refB n, resolveStep_refB n, h2]
    · show evaluateValueString (n + 1) exprRefA cyclicGraph true = _
      rw [evalStep_refA n, resolveStep_refA n, h1]

/-!
Claim C4.  The source evaluates the substituted string with JavaScript
`eval`, which maps `1/0` to `Infinity` and `0/0` to `NaN` without any
error; `evaluateValueString` returns these values to the caller.
-/

/-- Claim C4: the arithmetic evaluation of `evaluateValueString` does not
fail on division by zero: it returns the non-finite values `Infinity`
(for `1/0`) and `NaN` (for `0/0`) as ordinary results, with no error
condition of any kind. -/
theorem C4_division_by_zero_returns_infinity :
    evaluateValueString 1 exprDivZero emptyG false = Except.ok JSNum.inf ∧
    JSNum.inf.isFinite = false ∧
    evaluateValueString 1 exprZeroDivZero emptyG false = Except.ok JSNum.nan ∧
    JSNum.nan.isFinite = false := by
  exact ⟨by decide, rfl, by decide, rfl⟩

/-!
Claim C2.  In `updateNode` the rename-propagation loop computes
`node.valueExpression.replace(...)` but discards the result, so no other
node's expression is rewritten; re-deriving the edges afterwards therefore
loses the edges that pointed at the old label.
-/

/-- The rename payload: node A relabelled to X, expression unchanged (what
the form submits on a label edit). -/
def renamedA : Node := { nodeA with label := "X" }

/-- Claim C2 (failing computation): renaming A to X in the graph
A("1"), B("A" + 1) leaves B's expression still referencing the old label
A, and the re-derived edge set is empty, although before the rename the
Edge Deriver produced the edge from A to B.  The rename therefore does not
rewrite referencing expressions and does not preserve the edge topology. -/
theorem C2_rename_does_not_rewrite :
    updateNode renamedA graphAB
      = Except.ok { nodes := [renamedA, nodeB], edges := [] } ∧
    nodeB.valueExpression = exprB ∧
    extractLabels exprB = ["A"] ∧
    (updateEdges { nodes := [nodeA, nodeB], edges := [] }).edges
      = [{ source := 1, target := 2 }] := by
  exact ⟨by decide, rfl, by decide, by decide⟩

/-!
Claim C3.  After deleting node A, resolving B's expression hits
`graph.nodes.find(...)!` returning `undefined`; reading `.value` on it
throws a TypeError which escapes `updateNode` uncaught (there is no
try/catch anywhere in the handler chain), rather than producing a
structured `UnresolvedReference` result.
-/

/-- Claim C3 (failing computation): in the scenario A("1"), B("A" + 1),
C("B" + 1), resolving C recursively yields 3; after deleting A, resolving
B aborts with the modelled TypeError — an uncaught exception escaping the
mutation boundary, not a structured `UnresolvedReference` result — while
B's stored `value` is indeed left unchanged in the escaped state. -/
theorem C3_unresolved_reference_throws :
    evaluateValueString 4 exprC dataGraph true = Except.ok (JSNum.num 3) ∧
    deleteNodeE 1 graphAB = { nodes := [nodeB], edges := [] } ∧
    updateNode nodeB { nodes := [nodeB], edges := [] }
      = Except.error (EvalErr.typeError, { nodes := [nodeB], edges := [] }) ∧
    nodeB.value = JSNum.num 2 := by
  exact ⟨by decide, by decide, by decide, rfl⟩

/-!
Claim C7.  The create handler assigns `max(live ids) + 1`, which is fresh
among the live nodes, but ids of deleted nodes can be assigned again.
-/

/-- Bounds of a left fold with `max`: the seed and every listed element
are at most the fold's result. -/
theorem foldl_max_bounds (l : List Int) (a : Int) :
    a ≤ l.foldl max a ∧ ∀ x ∈ l, x ≤ l.foldl max a := by
  induction l generalizing a with
  | nil => simp
  | cons b t ih =>
    refine ⟨?_, ?_⟩
    · simp only [List.foldl_cons]
      exact le_trans (le_max_left a b) (ih (max a b)).1
    · intro x hx
      simp only [List.foldl_cons]
      rcases List.mem_cons.mp hx with rfl | hx2
      · exact le_trans (le_max_right a x) (ih (max a x)).1
      · exact (ih (max a b)).2 x hx2

/-- Claim C7 (amended): the id assigned by the create handler is distinct
from the id of every currently-live node, so live ids stay unique; it is
not distinct from ids previously assigned and since deleted (see the
counterexample). -/
theorem C7_fresh_id_not_live (g : Graph) :
    freshId g ∉ g.nodes.map (fun n => n.id) := by
  intro hmem
  unfold freshId at hmem
  cases h : g.nodes.map (fun n => n.id) with
  | nil => rw [h] at hmem; exact List.not_mem_nil _ hmem
  | cons i is =>
    rw [h] at hmem
    have hmem2 : is.foldl max i + 1 ∈ i :: is := hmem
    have hb := foldl_max_bounds is i
    rcases List.mem_cons.mp hmem2 with heq | hmem3
    · have := hb.1; omega
    · have := hb.2 _ hmem3; omega

/-- The graph after one create on the empty graph: one node with id 1. -/
def gOne : Graph := { nodes := [defaultNode emptyG], edges := [] }

/-- The graph after a second create: nodes with ids 1 and 2. -/
def gTwo : Graph := { nodes := [defaultNode emptyG, defaultNode gOne], edges := [] }

/-- Claim C7 (counterexample to "never reused within a session"): starting
from the empty graph, the first create assigns id 1 and the second id 2;
deleting the node with id 2 and creating again assigns id 2 a second time,
so an id of a deleted node is reused within the session. -/
theorem C7_id_reuse_counterexample :
    nodeCreateClick emptyG = Except.ok gOne ∧
    freshId gOne = 2 ∧
    nodeCreateClick gOne = Except.ok gTwo ∧
    deleteNodeE 2 gTwo = gOne ∧
    freshId (deleteNodeE 2 gTwo) = 2 ∧
    nodeCreateClick (deleteNodeE 2 gTwo) = Except.ok gTwo := by
  exact ⟨by decide, by decide, by decide, by decide, by decide, by decide⟩

/-!
Claim C10.  `deleteEdge` filters by the (source, target) pair of the
event's edge and ignores ids entirely.
-/

/-- Occurrence count in a filtered list: occurrences survive exactly when
the filter accepts the counted element. -/
theorem count_filter_full {α : Type} [DecidableEq α] (p : α → Bool) (a : α) (l : List α) :
    List.count a (l.filter p) = if p a then List.count a l else 0 := by
  induction l with
  | nil => simp
  | cons b t ih =>
    simp only [List.filter_cons]
    by_cases hb : p b
    · simp only [hb, if_true, List.count_cons, ih]
      by_cases hab : b = a
      · subst hab; simp [hb]
      · simp [hab]
    · simp only [Bool.not_eq_true] at hb
      simp only [hb, Bool.false_eq_true, if_false, ih, List.count_cons]
      by_cases hab : b = a
      · subst hab; simp [hb]
      · simp [hab]

/-- Claim C10: for every typed-edge state and edge payload, `deleteEdge`
succeeds, leaves the nodes and the impulse set unchanged, and removes
exactly the edges whose (source, target) pair equals the payload's pair —
all parallel duplicates included, whatever their ids — while every edge
with a different endpoint pair keeps its multiplicity. -/
theorem C10_delete_edge_by_endpoints (s : TAppState) (e e1 : TEdge) :
    ∃ s1 : TAppState,
      updateApp (TEvent.deleteEdge e) s = Except.ok s1 ∧
      s1.data.nodes = s.data.nodes ∧
      s1.impulses = s.impulses ∧
      List.count e1 s1.data.edges
        = if e1.source = e.source ∧ e1.target = e.target then 0
          else List.count e1 s.data.edges := by
  refine ⟨_, rfl, rfl, rfl, ?_⟩
  rw [count_filter_full]
  by_cases h : e1.source = e.source ∧ e1.target = e.target
  · simp [h.1, h.2, h]
  · have hp : (e1.source != e.source || e1.target != e.target) = true := by
      rcases not_and_or.mp h with h1 | h1 <;> simp [bne_iff_ne, h1]
    simp [hp, h]

/-!
Claim C6.  The Edge Deriver reads only the node collection and rewrites
the edge collection wholesale, so it is idempotent; every resolvable
label reference contributes exactly one edge and unresolvable references
are skipped without error (the function is total).
-/

/-- Length of a `filterMap`: the number of inputs on which the partial
function fires. -/
theorem length_filterMap_eq {α β : Type} (f : α → Option β) (l : List α) :
    (l.filterMap f).length = (l.filter (fun x => (f x).isSome)).length := by
  induction l with
  | nil => rfl
  | cons a t ih =>
    cases h : f a <;>
      simp [List.filterMap_cons, List.filter_cons, h, ih]

/-- Claim C6: the Edge Deriver is idempotent and leaves the nodes alone;
its edge count is exactly the number of resolvable label references over
all nodes (unresolvable references contribute nothing and raise no
error), and every produced edge goes from the first node carrying the
referenced label to the node whose expression was scanned. -/
theorem C6_edge_deriver_idempotent (g : Graph) :
    updateEdges (updateEdges g) = updateEdges g ∧
    (updateEdges g).nodes = g.nodes ∧
    (updateEdges g).edges.length
      = (g.nodes.map (fun t =>
          ((extractLabels t.valueExpression).filter
            (fun l => (g.nodes.find? (fun n => n.label == l)).isSome)).length)).sum ∧
    ∀ e ∈ (updateEdges g).edges, ∃ t ∈ g.nodes, ∃ l ∈ extractLabels t.valueExpression,
      ∃ s1, g.nodes.find? (fun n => n.label == l) = some s1 ∧
        e = { source := s1.id, target := t.id } := by
  refine ⟨rfl, rfl, ?_, ?_⟩
  · show ((g.nodes.map _).flatten).length = _
    rw [List.length_flatten, List.map_map]
    congr 1
    refine List.map_congr_left (fun t _ => ?_)
    simp only [Function.comp_apply, length_filterMap_eq]
    congr 1
    refine List.filter_congr (fun l _ => ?_)
    exact Option.isSome_map
  · intro e he
    rw [show (updateEdges g).edges = (g.nodes.map (fun targetNode =>
        (extractLabels targetNode.valueExpression).filterMap (fun label =>
          (g.nodes.find? (fun n => n.label == label)).map (fun sourceNode =>
            { source := sourceNode.id, target := targetNode.id })))).flatten from rfl,
      List.mem_flatten] at he
    obtain ⟨l0, hl0, hel⟩ := he
    rw [List.mem_map] at hl0
    obtain ⟨t, ht, rfl⟩ := hl0
    rw [List.mem_filterMap] at hel
    obtain ⟨lab, hlab, hfl⟩ := hel
    rw [Option.map_eq_some'] at hfl
    obtain ⟨s1, hs1, rfl⟩ := hfl
    exact ⟨t, ht, lab, hlab, s1, hs1, rfl⟩

/-- The two-node graph used to instantiate the Edge Deriver claim. -/
def gAB0 : Graph := { nodes := [nodeA, nodeB], edges := [] }

/-- The derived edge of `gAB0`: node B references node A. -/
def edgeAB : Edge := { source := 1, target := 2 }

/-- Witness for claim C6: on the concrete graph A("1"), B("A" + 1) the
derived edge from A to B satisfies the per-edge characterization. -/
theorem C6_edge_deriver_idempotent_witness :
    (edgeAB ∈ (updateEdges gAB0).edges) ∧
    (∃ t ∈ gAB0.nodes, ∃ l ∈ extractLabels t.valueExpression,
      ∃ s1, gAB0.nodes.find? (fun n => n.label == l) = some s1 ∧
        edgeAB = { source := s1.id, target := t.id }) :=
  ⟨by decide, (C6_edge_deriver_idempotent gAB0).2.2.2 edgeAB (by decide)⟩

/-!
Claim C9.  `moveNode` updates only the position coordinates.  In the
typed-edge variant it copies exactly `x` and `y` onto the stored node; in
the expression variant it replaces the array slot by the event's node
object, which at the only call site is the stored node itself with its
position already updated.  Neither variant re-derives edges or
re-evaluates any expression.
-/

/-- Updating the first id-match equals a pointwise map when the ids are
unique. -/
theorem updateFirst_eq_map (f : TNode → TNode) (i : Int) (l : List TNode)
    (h : (l.map (fun n => n.id)).Nodup) :
    updateFirst f i l = l.map (fun n => if n.id == i then f n else n) := by
  induction l with
  | nil => rfl
  | cons n t ih =>
    simp only [List.map_cons, List.nodup_cons] at h
    simp only [updateFirst, List.map_cons]
    by_cases hn : (n.id == i) = true
    · rw [if_pos hn, if_pos hn]
      have ht : t.map (fun m => if m.id == i then f m else m) = t.map (fun m => m) := by
        refine List.map_congr_left (fun m hm => ?_)
        have hmi : m.id ≠ i := by
          intro heq
          exact h.1 (by
            rw [List.mem_map]
            exact ⟨m, hm, by rw [heq, eq_of_beq hn]⟩)
        simp [hmi]
      rw [ht, List.map_id']
    · rw [if_neg hn, if_neg hn, ih h.2]

/-- Claim C9: the move mutation changes only the position of the addressed
node.  Typed-edge variant: for a live id, `updateApp` succeeds and the
resulting state is the old one with exactly the matching node's `x` and
`y` replaced — label and value of every node, the edge collection and the
impulse set are untouched, and no evaluation is involved.  Expression
variant: when the payload agrees with the stored node except in position
(as at the drag call site), `moveNodeE` likewise replaces only the
position, leaving labels, expressions, values and edges unchanged. -/
theorem C9_move_node_only_position :
    (∀ (s : TAppState) (p : TNode),
      ((s.data.nodes.map (fun n => n.id)).Nodup) →
      p.id ∈ s.data.nodes.map (fun n => n.id) →
      updateApp (TEvent.moveNode p) s = Except.ok ({ s with data := { s.data with
        nodes := s.data.nodes.map (fun n =>
          if n.id == p.id then { n with x := p.x, y := p.y } else n) } })) ∧
    (∀ (g : Graph) (p n0 : Node),
      ((g.nodes.map (fun n => n.id)).Nodup) →
      n0 ∈ g.nodes → n0.id = p.id → p = { n0 with x := p.x, y := p.y } →
      moveNodeE p g = { g with nodes := g.nodes.map (fun n =>
        if n.id == p.id then { n with x := p.x, y := p.y } else n) }) := by
  constructor
  · intro s p hnd hmem
    have hsome : (s.data.nodes.find? (fun n => n.id == p.id)).isSome := by
      rw [List.find?_isSome]
      rw [List.mem_map] at hmem
      obtain ⟨n, hn, hid⟩ := hmem
      exact ⟨n, hn, by simp [hid]⟩
    cases hfind : s.data.nodes.find? (fun n => n.id == p.id) with
    | none => rw [hfind] at hsome; simp at hsome
    | some n1 =>
      show (match s.data.nodes.find? (fun n => n.id == p.id) with
        | none => Except.error s
        | some _ => Except.ok ({ s with data := { s.data with
            nodes := updateFirst (fun n => { n with x := p.x, y := p.y }) p.id s.data.nodes } })) = _
      rw [hfind]
      rw [updateFirst_eq_map _ _ _ hnd]
  · intro g p n0 hnd hn0 hid hp
    unfold moveNodeE
    have hnodes : g.nodes.map (fun n => if n.id == p.id then p else n)
        = g.nodes.map (fun n => if n.id == p.id then { n with x := p.x, y := p.y } else n) := by
      refine List.map_congr_left (fun n hn => ?_)
      by_cases hni : n.id == p.id
      · have hnn0 : n = n0 :=
          List.inj_on_of_nodup_map hnd hn hn0 (by rw [eq_of_beq hni, hid])
        simp only [hni, if_true]
        rw [hp, hnn0]
      · simp [hni]
    rw [hnodes]

/-- A typed node at the origin, used to instantiate the move claim. -/
def tMoveBase : TNode := { id := 7, x := 0, y := 0, label := "M", value := 5 }

/-- The same typed node with an updated position (the drag payload). -/
def tMoved : TNode := { tMoveBase with x := mkRat 1 3, y := mkRat 2 3 }

/-- A one-node typed state for the move witness. -/
def sMove : TAppState :=
  { data := { nodes := [tMoveBase], edges := [] }, impulses := [] }

/-- Node A with an updated position (the expression-mode drag payload). -/
def movedA : Node := { nodeA with x := mkRat 1 3, y := mkRat 2 3 }

/-- Witness for claim C9: both variants applied at concrete states. -/
theorem C9_move_node_only_position_witness :
    updateApp (TEvent.moveNode tMoved) sMove = Except.ok ({ sMove with
      data := { sMove.data with nodes := sMove.data.nodes.map (fun n =>
        if n.id == tMoved.id then { n with x := tMoved.x, y := tMoved.y } else n) } }) ∧
    moveNodeE movedA gAB0 = { gAB0 with nodes := gAB0.nodes.map (fun n =>
      if n.id == movedA.id then { n with x := movedA.x, y := movedA.y } else n) } :=
  ⟨C9_move_node_only_position.1 sMove tMoved (by decide) (by decide),
   C9_move_node_only_position.2 gAB0 movedA nodeA (by decide) (by decide) (by decide) (by decide)⟩

/-!
Claim C8.  Typed-edge referential integrity: `deleteNode` removes all
incident edges unconditionally; every other handler preserves validity of
the edge endpoints, but `createEdge`/`updateEdge` perform no validation of
the payload, so a payload with a dangling id breaks the invariant.
-/

/-- The node ids of a typed graph. -/
def nodeIds (g : TGraph) : List Int := g.nodes.map (fun n => n.id)

/-- Referential integrity of the typed-edge graph: every edge endpoint is
the id of a live node. -/
def edgesValid (g : TGraph) : Prop :=
  ∀ e ∈ g.edges, e.source ∈ nodeIds g ∧ e.target ∈ nodeIds g

/-- Validity of an event's payload with respect to the current graph: the
edge supplied to `createEdge`/`updateEdge` references live node ids (which
the UI call sites guarantee); other events have no edge payload. -/
def payloadValid : TEvent → TGraph → Prop
  | TEvent.createEdge e, g => e.source ∈ nodeIds g ∧ e.target ∈ nodeIds g
  | TEvent.updateEdge e, g => e.source ∈ nodeIds g ∧ e.target ∈ nodeIds g
  | _, _ => True

/-- Decidability of the referential-integrity invariant, for evaluation on
concrete states. -/
instance (g : TGraph) : Decidable (edgesValid g) := by
  unfold edgesValid; infer_instance

/-- Decidability of payload validity, for evaluation on concrete events. -/
instance (ev : TEvent) (g : TGraph) : Decidable (payloadValid ev g) := by
  cases ev <;> simp only [payloadValid] <;> infer_instance

/-- The state a handler leaves behind, whether it returns normally or the
modelled exception escapes. -/
def resState : Except TAppState TAppState → TAppState
  | Except.ok s => s
  | Except.error s => s

/-- The graph a connection/impulse loop leaves behind, whether it finishes
or throws. -/
def pcGraph : Except (TGraph × List Int) (TGraph × List Int) → TGraph
  | Except.ok r => r.1
  | Except.error r => r.1

/-- Updating a node in place with an id-preserving function does not
change the id list. -/
theorem updateFirst_map_id (f : TNode → TNode) (i : Int) (l : List TNode)
    (hf : ∀ n, (f n).id = n.id) :
    (updateFirst f i l).map (fun n => n.id) = l.map (fun n => n.id) := by
  induction l with
  | nil => rfl
  | cons n t ih =>
    simp only [updateFirst]
    by_cases hn : (n.id == i) = true
    · rw [if_pos hn]; simp [hf n]
    · rw [if_neg hn]; simp only [List.map_cons, ih]

/-- A graph with the same ids and edges as a valid one is valid. -/
theorem edgesValid_of_same (g g1 : TGraph) (hv : edgesValid g)
    (hn : nodeIds g1 = nodeIds g) (he : g1.edges = g.edges) : edgesValid g1 := by
  intro e he1
  rw [he] at he1
  rw [hn]
  exact hv e he1

/-- The inner connection loop preserves the id list and the edge list, on
both the normal and the throwing path. -/
theorem pushConnections_preserves (L : List TEdge) :
    ∀ (g : TGraph) (acc : List Int),
      nodeIds (pcGraph (pushConnections g L acc)) = nodeIds g ∧
      (pcGraph (pushConnections g L acc)).edges = g.edges := by
  induction L with
  | nil => intro g acc; exact ⟨rfl, rfl⟩
  | cons e rest ih =>
    intro g acc
    simp only [pushConnections]
    cases happ : applyConnection g e with
    | none => exact ⟨rfl, rfl⟩
    | some g1 =>
      have hg1 : nodeIds g1 = nodeIds g ∧ g1.edges = g.edges := by
        unfold applyConnection at happ
        cases hf : g.nodes.find? (fun n => n.id == e.target) with
        | none => rw [hf] at happ; exact Option.noConfusion happ
        | some n0 =>
          rw [hf] at happ
          injection happ with h1
          rw [← h1]
          exact ⟨updateFirst_map_id _ _ _ (fun n => rfl), rfl⟩
      have hrest := ih g1 (acc ++ [e.target])
      exact ⟨hrest.1.trans hg1.1, hrest.2.trans hg1.2⟩

/-- The outer impulse loop preserves the id list and the edge list, on
both the normal and the throwing path. -/
theorem pushImpulses_preserves (imps : List Int) :
    ∀ (g : TGraph) (acc : List Int),
      nodeIds (pcGraph (pushImpulses g imps acc)) = nodeIds g ∧
      (pcGraph (pushImpulses g imps acc)).edges = g.edges := by
  induction imps with
  | nil => intro g acc; exact ⟨rfl, rfl⟩
  | cons i rest ih =>
    intro g acc
    simp only [pushImpulses]
    cases hpc : pushConnections g (g.edges.filter (fun e => e.source == i)) acc with
    | error r =>
      have h := pushConnections_preserves (g.edges.filter (fun e => e.source == i)) g acc
      rw [hpc] at h
      exact h
    | ok r =>
      obtain ⟨g1, acc1⟩ := r
      have h := pushConnections_preserves (g.edges.filter (fun e => e.source == i)) g acc
      rw [hpc] at h
      have h2 := ih g1 acc1
      exact ⟨h2.1.trans h.1, h2.2.trans h.2⟩

/-- Membership in the id list survives deleting a different id. -/
theorem mem_ids_filter (l : List TNode) (x i : Int)
    (hx : x ∈ l.map (fun n => n.id)) (hne : x ≠ i) :
    x ∈ (l.filter (fun d => d.id != i)).map (fun n => n.id) := by
  rw [List.mem_map] at hx
  obtain ⟨n, hn, rfl⟩ := hx
  rw [List.mem_map]
  exact ⟨n, List.mem_filter.mpr ⟨hn, by simp [bne_iff_ne, hne]⟩, rfl⟩

/-- Claim C8 (amended): starting from a state whose edges reference only
live node ids, every handler preserves that invariant provided the edge
payload of a `createEdge`/`updateEdge` event references live ids (as the
UI call sites ensure); in particular `deleteNode` unconditionally removes
every edge incident to the deleted node.  The store itself performs no
validation — see the counterexample for an invalid payload. -/
theorem C8_invariant_preserved (s : TAppState) (ev : TEvent)
    (hv : edgesValid s.data) (hp : payloadValid ev s.data) :
    edgesValid (resState (updateApp ev s)).data := by
  cases ev with
  | init => exact hv
  | selectNode o => exact hv
  | selectEdge o => exact hv
  | exportGraph => exact hv
  | removeImpulses => exact hv
  | renameNode p =>
    simp only [updateApp]
    cases hfind : s.data.nodes.find? (fun n => n.id == p.id) with
    | none => exact hv
    | some n0 =>
      exact edgesValid_of_same _ _ hv (updateFirst_map_id _ _ _ (fun n => rfl)) rfl
  | incrementNode p =>
    simp only [updateApp]
    cases hfind : s.data.nodes.find? (fun n => n.id == p.id) with
    | none => exact hv
    | some n0 =>
      exact edgesValid_of_same _ _ hv (updateFirst_map_id _ _ _ (fun n => rfl)) rfl
  | decrementNode p =>
    simp only [updateApp]
    cases hfind : s.data.nodes.find? (fun n => n.id == p.id) with
    | none => exact hv
    | some n0 =>
      exact edgesValid_of_same _ _ hv (updateFirst_map_id _ _ _ (fun n => rfl)) rfl
  | moveNode p =>
    simp only [updateApp]
    cases hfind : s.data.nodes.find? (fun n => n.id == p.id) with
    | none => exact hv
    | some n0 =>
      exact edgesValid_of_same _ _ hv (updateFirst_map_id _ _ _ (fun n => rfl)) rfl
  | deleteNode p =>
    intro e he
    simp only [updateApp, resState] at he
    rw [List.mem_filter] at he
    obtain ⟨he1, hsrc⟩ := he
    rw [List.mem_filter] at he1
    obtain ⟨he0, htgt⟩ := he1
    have hends := hv e he0
    rw [bne_iff_ne] at hsrc htgt
    exact ⟨mem_ids_filter _ _ _ hends.1 hsrc, mem_ids_filter _ _ _ hends.2 htgt⟩
  | createNode p =>
    intro e he
    have hends := hv e he
    have hsub : ∀ x : Int, x ∈ nodeIds s.data
        → x ∈ (s.data.nodes ++ [p]).map (fun n => n.id) := by
      intro x hx
      rw [List.map_append]
      exact List.mem_append_left _ hx
    exact ⟨hsub _ hends.1, hsub _ hends.2⟩
  | pushImpulsesDownstream =>
    simp only [updateApp, pushStep]
    cases hpi : pushImpulses s.data s.impulses [] with
    | error r =>
      have h := pushImpulses_preserves s.impulses s.data []
      rw [hpi] at h
      exact edgesValid_of_same _ _ hv h.1 h.2
    | ok r =>
      obtain ⟨g1, acc1⟩ := r
      have h := pushImpulses_preserves s.impulses s.data []
      rw [hpi] at h
      exact edgesValid_of_same _ _ hv h.1 h.2
  | createEdge e0 =>
    intro e he
    simp only [updateApp, resState] at he
    rw [List.mem_append] at he
    rcases he with he | he
    · exact hv e he
    · rw [List.mem_singleton] at he
      subst he
      exact hp
  | deleteEdge e0 =>
    intro e he
    simp only [updateApp, resState] at he
    rw [List.mem_filter] at he
    exact hv e he.1
  | updateEdge e0 =>
    intro e he
    simp only [updateApp, resState] at he
    rw [List.mem_map] at he
    obtain ⟨ed, hed, heq⟩ := he
    by_cases hid : (ed.id == e0.id) = true
    · rw [if_pos hid] at heq
      subst heq
      exact hp
    · rw [if_neg hid] at heq
      subst heq
      exact hv ed hed

/-- A node for the referential-integrity scenarios. -/
def c8n1 : TNode := { id := 1, x := 0, y := 0, label := "A", value := 1 }

/-- A second node for the referential-integrity scenarios. -/
def c8n2 : TNode := { id := 2, x := 0, y := 0, label := "B", value := 2 }

/-- An edge between the two scenario nodes. -/
def c8e : TEdge := { id := 1, source := 1, target := 2, type := EdgeType.increment }

/-- A valid two-node one-edge typed state. -/
def sC8 : TAppState := { data := { nodes := [c8n1, c8n2], edges := [c8e] }, impulses := [] }

/-- A one-node valid typed state. -/
def cexState : TAppState := { data := { nodes := [c8n1], edges := [] }, impulses := [] }

/-- An edge payload whose source id 999 matches no node. -/
def danglingEdge : TEdge := { id := 1, source := 999, target := 1, type := EdgeType.increment }

/-- The state after pushing the dangling edge. -/
def cexStateAfter : TAppState :=
  { data := { nodes := [c8n1], edges := [danglingEdge] }, impulses := [] }

/-- Claim C8 (counterexample to the unconditional reading): `createEdge`
performs no validation, so a payload referencing the non-existent node id
999 is appended as-is and the store ends in a state whose edge references
a non-existent node. -/
theorem C8_create_edge_dangling_counterexample :
    edgesValid cexState.data ∧
    updateApp (TEvent.createEdge danglingEdge) cexState = Except.ok cexStateAfter ∧
    ¬ edgesValid cexStateAfter.data := by
  exact ⟨by decide, by decide, by decide⟩

/-- Witness for claim C8: deleting node 2 from a valid two-node state with
an incident edge preserves the invariant. -/
theorem C8_invariant_preserved_witness :
    edgesValid sC8.data ∧ payloadValid (TEvent.deleteNode c8n2) sC8.data ∧
    edgesValid (resState (updateApp (TEvent.deleteNode c8n2) sC8)).data :=
  ⟨by decide, by decide,
   C8_invariant_preserved sC8 (TEvent.deleteNode c8n2) (by decide) (by decide)⟩

/-!
Claim C5.  One propagation step: every typed edge whose source is
impulsed applies its delta to its target (a target hit by k edges gets
all k deltas), the collected targets de-duplicated in first-seen order
become the next impulse set, and impulsed leaves contribute nothing.
-/

/-- The edges leaving a given node (`appState.data.edges.filter(e =>
e.source === nodeId)`, src/unnamed/part_000 line 176). -/
def outgoing (g : TGraph) (i : Int) : List TEdge :=
  g.edges.filter (fun e => e.source == i)

/-- The cumulative effect on one node of processing a batch of edges:
one +1 per increment edge targeting it, one -1 per decrement edge
targeting it; all other fields unchanged. -/
def stepValue (L : List TEdge) (n : TNode) : TNode :=
  { n with value := n.value
      + (((L.filter (fun e => e.target == n.id && e.type == EdgeType.increment)).length : ℚ))
      - (((L.filter (fun e => e.target == n.id && e.type == EdgeType.decrement)).length : ℚ)) }

/-- The number of edges of the given kind that leave an impulsed node and
hit the given target. -/
def deltaCount (g : TGraph) (imps : List Int) (t : Int) (ty : EdgeType) : Nat :=
  (g.edges.filter (fun e => imps.contains e.source && (e.target == t && e.type == ty))).length

/-- Processing no edges changes no node. -/
theorem map_stepValue_nil (l : List TNode) : l.map (stepValue []) = l := by
  refine (List.map_congr_left fun n hn => ?_).trans (List.map_id' l)
  unfold stepValue
  cases n
  simp

/-- Prepending one edge to a batch is the same as applying its delta
first (to its target) and then the rest of the batch. -/
theorem stepValue_cons (e : TEdge) (rest : List TEdge) (n : TNode) :
    stepValue rest
      (if n.id == e.target then { n with value := ratAdd n.value (edgeDelta e.type) } else n)
      = stepValue (e :: rest) n := by
  by_cases h : (n.id == e.target) = true
  · rw [if_pos h]
    have hid : (e.target == n.id) = true := by
      rw [beq_iff_eq] at h ⊢
      exact h.symm
    unfold stepValue
    simp only [TNode.mk.injEq, true_and]
    rw [ratAdd_eq]
    cases hty : e.type with
    | increment =>
      simp only [List.filter_cons, hid, hty, Bool.true_and,
        show (EdgeType.increment == EdgeType.increment) = true from rfl,
        show (EdgeType.increment == EdgeType.decrement) = false from rfl,
        if_true, Bool.false_eq_true, if_false, List.length_cons, edgeDelta]
      push_cast
      ring
    | decrement =>
      simp only [List.filter_cons, hid, hty, Bool.true_and,
        show (EdgeType.decrement == EdgeType.increment) = false from rfl,
        show (EdgeType.decrement == EdgeType.decrement) = true from rfl,
        if_true, Bool.false_eq_true, if_false, List.length_cons, edgeDelta]
      push_cast
      ring
  · rw [if_neg h]
    have hid : (e.target == n.id) = false := by
      rw [beq_eq_false_iff_ne]
      rw [beq_iff_eq] at h
      intro heq
      exact h heq.symm
    unfold stepValue
    simp only [TNode.mk.injEq, true_and]
    simp only [List.filter_cons, hid, Bool.false_and, Bool.false_eq_true, if_false]

/-- Splitting a batch: processing the concatenation equals processing the
parts in order. -/
theorem stepValue_append (L1 L2 : List TEdge) (n : TNode) :
    stepValue L2 (stepValue L1 n) = stepValue (L1 ++ L2) n := by
  unfold stepValue
  simp only [TNode.mk.injEq, true_and]
  simp only [List.filter_append, List.length_append]
  push_cast
  ring

/-- The ids of the nodes are unchanged by a batch update. -/
theorem map_id_map_stepValue (L : List TEdge) (l : List TNode) :
    (l.map (stepValue L)).map (fun n => n.id) = l.map (fun n => n.id) := by
  rw [List.map_map]
  rfl

/-- Full characterization of the inner connection loop when every target
exists and ids are unique: it succeeds, applies all deltas of the batch,
and collects the batch's targets in order. -/
theorem pushConnections_ok (L : List TEdge) :
    ∀ (g : TGraph) (acc : List Int),
      ((g.nodes.map (fun n => n.id)).Nodup) →
      (∀ e ∈ L, e.target ∈ g.nodes.map (fun n => n.id)) →
      pushConnections g L acc
        = Except.ok ({ g with nodes := g.nodes.map (stepValue L) },
                     acc ++ L.map (fun e => e.target)) := by
  induction L with
  | nil =>
    intro g acc hnd hL
    simp only [pushConnections, List.map_nil, List.append_nil, map_stepValue_nil]
  | cons e rest ih =>
    intro g acc hnd hL
    have htgt := hL e (List.mem_cons_self e rest)
    have hsome : (g.nodes.find? (fun n => n.id == e.target)).isSome := by
      rw [List.find?_isSome]
      rw [List.mem_map] at htgt
      obtain ⟨n, hn, hid⟩ := htgt
      exact ⟨n, hn, by simp [hid]⟩
    cases hfind : g.nodes.find? (fun n => n.id == e.target) with
    | none => rw [hfind] at hsome; simp at hsome
    | some n0 =>
      have happ : applyConnection g e = some { g with
          nodes := updateFirst (fun n => { n with value := ratAdd n.value (edgeDelta e.type) })
            e.target g.nodes } := by
        unfold applyConnection
        rw [hfind]
      have hstep : pushConnections g (e :: rest) acc
          = pushConnections { g with
              nodes := updateFirst (fun n => { n with value := ratAdd n.value (edgeDelta e.type) })
                e.target g.nodes } rest (acc ++ [e.target]) := by
        simp only [pushConnections]
        rw [happ]
      rw [hstep, updateFirst_eq_map _ _ _ hnd]
      have hnd1 : ((g.nodes.map (fun n =>
          if n.id == e.target then { n with value := ratAdd n.value (edgeDelta e.type) } else n)).map
            (fun n => n.id)).Nodup := by
        rw [List.map_map]
        have : ((fun n => n.id) ∘ (fun n : TNode =>
            if n.id == e.target then { n with value := ratAdd n.value (edgeDelta e.type) } else n))
            = fun n : TNode => n.id := by
          funext n
          by_cases h : (n.id == e.target) = true
          · simp [Function.comp, h]
          · simp [Function.comp, h]
        rw [this]
        exact hnd
      have hL1 : ∀ e1 ∈ rest, e1.target ∈ (g.nodes.map (fun n =>
          if n.id == e.target then { n with value := ratAdd n.value (edgeDelta e.type) } else n)).map
            (fun n => n.id) := by
        intro e1 he1
        have h0 := hL e1 (List.mem_cons_of_mem e he1)
        rw [List.map_map]
        have : ((fun n => n.id) ∘ (fun n : TNode =>
            if n.id == e.target then { n with value := ratAdd n.value (edgeDelta e.type) } else n))
            = fun n : TNode => n.id := by
          funext n
          by_cases h : (n.id == e.target) = true
          · simp [Function.comp, h]
          · simp [Function.comp, h]
        rw [this]
        exact h0
      rw [ih _ (acc ++ [e.target]) hnd1 hL1]
      rw [List.map_map]
      have hcomp : (stepValue rest ∘ (fun n : TNode =>
          if n.id == e.target then { n with value := ratAdd n.value (edgeDelta e.type) } else n))
          = stepValue (e :: rest) := by
        funext n
        exact stepValue_cons e rest n
      rw [hcomp]
      simp only [List.map_cons, List.append_assoc, List.singleton_append]

/-- Full characterization of the outer impulse loop: with unique node ids
and all relevant targets live, one invocation applies the deltas of every
edge leaving an impulsed node (grouped per impulse, in order) and collects
all their targets. -/
theorem pushImpulses_ok (imps : List Int) :
    ∀ (g : TGraph) (acc : List Int),
      ((g.nodes.map (fun n => n.id)).Nodup) →
      (∀ i ∈ imps, ∀ e ∈ g.edges, e.source = i →
        e.target ∈ g.nodes.map (fun n => n.id)) →
      pushImpulses g imps acc
        = Except.ok ({ g with nodes := g.nodes.map (stepValue (imps.flatMap (fun i => outgoing g i))) },
                     acc ++ (imps.flatMap (fun i => outgoing g i)).map (fun e => e.target)) := by
  induction imps with
  | nil =>
    intro g acc hnd h
    simp only [pushImpulses, List.flatMap_nil, List.map_nil, List.append_nil, map_stepValue_nil]
  | cons i rest ih =>
    intro g acc hnd h
    have hL1 : ∀ e ∈ g.edges.filter (fun e => e.source == i),
        e.target ∈ g.nodes.map (fun n => n.id) := by
      intro e he
      rw [List.mem_filter] at he
      exact h i (List.mem_cons_self i rest) e he.1 (eq_of_beq he.2)
    have hpc := pushConnections_ok (g.edges.filter (fun e => e.source == i)) g acc hnd hL1
    have hstep : pushImpulses g (i :: rest) acc
        = pushImpulses
            { g with nodes := g.nodes.map (stepValue (g.edges.filter (fun e => e.source == i))) }
            rest (acc ++ (g.edges.filter (fun e => e.source == i)).map (fun e => e.target)) := by
      simp only [pushImpulses]
      rw [hpc]
    rw [hstep]
    have hnd1 : (({ g with
        nodes := g.nodes.map (stepValue (g.edges.filter (fun e => e.source == i))) } : TGraph).nodes.map
          (fun n => n.id)).Nodup := by
      show ((g.nodes.map (stepValue (g.edges.filter (fun e => e.source == i)))).map
        (fun n => n.id)).Nodup
      rw [map_id_map_stepValue]
      exact hnd
    have h1 : ∀ j ∈ rest, ∀ e ∈ ({ g with
        nodes := g.nodes.map (stepValue (g.edges.filter (fun e => e.source == i))) } : TGraph).edges,
        e.source = j → e.target ∈ ({ g with
          nodes := g.nodes.map (stepValue (g.edges.filter (fun e => e.source == i))) } : TGraph).nodes.map
            (fun n => n.id) := by
      intro j hj e he hsrc
      show e.target ∈ (g.nodes.map (stepValue (g.edges.filter (fun e => e.source == i)))).map
        (fun n => n.id)
      rw [map_id_map_stepValue]
      exact h j (List.mem_cons_of_mem i hj) e he hsrc
    rw [ih _ _ hnd1 h1]
    have hog : ∀ j : Int, outgoing { g with
        nodes := g.nodes.map (stepValue (g.edges.filter (fun e => e.source == i))) } j
        = outgoing g j := fun j => rfl
    simp only [hog]
    rw [List.map_map]
    have hcomp : (stepValue (rest.flatMap (fun j => outgoing g j))
        ∘ stepValue (g.edges.filter (fun e => e.source == i)))
        = stepValue ((i :: rest).flatMap (fun j => outgoing g j)) := by
      funext n
      rw [Function.comp_apply, stepValue_append]
      rw [List.flatMap_cons]
      rfl
    rw [hcomp]
    rw [List.flatMap_cons]
    simp only [List.map_append, List.append_assoc]
    rfl

/-- Splitting a filter over a disjoint disjunction of conditions. -/
theorem length_filter_orand (l : List TEdge) (p q1 q2 : TEdge → Bool)
    (hdisj : ∀ e ∈ l, q1 e = true → q2 e = false) :
    (l.filter (fun e => (q1 e || q2 e) && p e)).length
      = (l.filter (fun e => p e && q1 e)).length
        + (l.filter (fun e => q2 e && p e)).length := by
  induction l with
  | nil => rfl
  | cons a t ih =>
    have iht := ih (fun e he => hdisj e (List.mem_cons_of_mem a he))
    have hda := hdisj a (List.mem_cons_self a t)
    simp only [List.filter_cons]
    by_cases h1 : q1 a = true
    · have h2 : q2 a = false := hda h1
      by_cases hp : p a = true
      · simp only [h1, h2, hp, Bool.true_or, Bool.true_and, Bool.and_true,
          Bool.false_and, Bool.false_eq_true, if_true, if_false, List.length_cons]
        omega
      · have hp2 : p a = false := by simpa using hp
        simp only [h1, h2, hp2, Bool.true_or, Bool.and_false, Bool.false_and,
          Bool.false_eq_true, if_false]
        omega
    · have h1f : q1 a = false := by simpa using h1
      by_cases h2 : q2 a = true
      · by_cases hp : p a = true
        · simp only [h1f, h2, hp, Bool.false_or, Bool.true_and, Bool.and_false,
            Bool.and_true, Bool.false_eq_true, if_true, if_false, List.length_cons]
          omega
        · have hp2 : p a = false := by simpa using hp
          simp only [h1f, h2, hp2, Bool.false_or, Bool.and_false, Bool.true_and,
            Bool.false_eq_true, if_false]
          omega
      · have h2f : q2 a = false := by simpa using h2
        simp only [h1f, h2f, Bool.false_or, Bool.false_and, Bool.and_false,
          Bool.false_eq_true, if_false]
        omega

/-- With a duplicate-free impulse list, counting matches in the
per-impulse concatenation of outgoing edges equals one filtered count
over the whole edge list. -/
theorem flatMap_filter_count (g : TGraph) (p : TEdge → Bool) :
    ∀ imps : List Int, imps.Nodup →
      ((imps.flatMap (fun i => outgoing g i)).filter p).length
        = (g.edges.filter (fun e => imps.contains e.source && p e)).length := by
  intro imps
  induction imps with
  | nil =>
    intro hnd
    simp only [List.flatMap_nil, List.filter_nil, List.length_nil]
    have : (g.edges.filter (fun e => ([] : List Int).contains e.source && p e)) = [] := by
      simp
    rw [this]
    rfl
  | cons i rest ih =>
    intro hnd
    rw [List.nodup_cons] at hnd
    rw [List.flatMap_cons, List.filter_append, List.length_append]
    rw [show outgoing g i = g.edges.filter (fun e => e.source == i) from rfl]
    rw [List.filter_filter, ih hnd.2]
    have hsplit := length_filter_orand g.edges p (fun e => e.source == i)
      (fun e => rest.contains e.source) ?_
    · have hcond : (fun e : TEdge => (i :: rest).contains e.source && p e)
          = fun e : TEdge => ((e.source == i || rest.contains e.source) && p e) := by
        funext e
        rw [List.contains_cons]
      rw [hcond]
      rw [hsplit]
    · intro e he hq1
      have hsi : e.source = i := eq_of_beq hq1
      show rest.contains e.source = false
      rw [hsi]
      by_cases hc : rest.contains i = true
      · exact absurd (List.elem_iff.mp hc) hnd.1
      · simpa using hc

/-- The state one successful propagation step produces: batched deltas
applied to the nodes, targets collected and de-duplicated. -/
def pushResult (s : TAppState) : TAppState :=
  { data := { s.data with
      nodes := s.data.nodes.map (stepValue (s.impulses.flatMap (fun i => outgoing s.data i))) },
    impulses := jsUnique
      ((s.impulses.flatMap (fun i => outgoing s.data i)).map (fun e => e.target)) }

/-- Claim C5: one invocation of `pushImpulsesDownstream` on a
duplicate-free impulse set (with unique node ids and live targets, as the
typed-mode invariant provides) succeeds and (a) leaves the edges
untouched, (b) adds to each node's value +1 per increment edge and -1 per
decrement edge whose source is impulsed and whose target is that node — a
node reached by k such edges receives all k deltas — with every other
field unchanged, (c) replaces the impulse set by the de-duplicated list
of all reached targets in first-seen order, and (d) if no impulsed node
has outgoing edges, the values are unchanged and the new impulse set is
empty. -/
theorem C5_push_impulses_step (s : TAppState)
    (hids : ((s.data.nodes.map (fun n => n.id)).Nodup))
    (himps : s.impulses.Nodup)
    (htargets : ∀ i ∈ s.impulses, ∀ e ∈ s.data.edges, e.source = i →
      e.target ∈ s.data.nodes.map (fun n => n.id)) :
    ∃ s1 : TAppState,
      updateApp TEvent.pushImpulsesDownstream s = Except.ok s1 ∧
      s1.data.edges = s.data.edges ∧
      s1.data.nodes = s.data.nodes.map (fun n =>
        { n with value := n.value
            + ((deltaCount s.data s.impulses n.id EdgeType.increment : ℚ))
            - ((deltaCount s.data s.impulses n.id EdgeType.decrement : ℚ)) }) ∧
      s1.impulses
        = jsUnique ((s.impulses.flatMap (fun i => outgoing s.data i)).map (fun e => e.target)) ∧
      ((∀ i ∈ s.impulses, outgoing s.data i = []) → s1.data = s.data ∧ s1.impulses = []) := by
  have hpi := pushImpulses_ok s.impulses s.data [] hids htargets
  have hstep : updateApp TEvent.pushImpulsesDownstream s = Except.ok (pushResult s) := by
    simp only [updateApp, pushStep]
    rw [hpi]
    rfl
  refine ⟨_, hstep, rfl, ?_, rfl, ?_⟩
  · show s.data.nodes.map (stepValue (s.impulses.flatMap (fun i => outgoing s.data i))) = _
    refine List.map_congr_left fun n hn => ?_
    unfold stepValue
    simp only [TNode.mk.injEq, true_and]
    have hinc := flatMap_filter_count s.data
      (fun e => e.target == n.id && e.type == EdgeType.increment) s.impulses himps
    have hdec := flatMap_filter_count s.data
      (fun e => e.target == n.id && e.type == EdgeType.decrement) s.impulses himps
    rw [hinc, hdec]
    rfl
  · intro hleaf
    have hA : s.impulses.flatMap (fun i => outgoing s.data i) = [] :=
      List.flatMap_eq_nil_iff.mpr hleaf
    constructor
    · show (pushResult s).data = s.data
      unfold pushResult
      rw [hA, map_stepValue_nil]
    · show (pushResult s).impulses = []
      unfold pushResult
      rw [hA]
      rfl

/-- A typed state matching the specification's propagation scenario:
nodes A (id 1) and B (id 2), one increment edge from A to B, impulse set
containing A. -/
def c5s : TAppState :=
  { data := { nodes := [c8n1, c8n2], edges := [c8e] }, impulses := [1] }

/-- Witness for claim C5: the propagation scenario state satisfies the
hypotheses and the step theorem applies to it. -/
theorem C5_push_impulses_step_witness :
    ((c5s.data.nodes.map (fun n => n.id)).Nodup) ∧
    c5s.impulses.Nodup ∧
    (∀ i ∈ c5s.impulses, ∀ e ∈ c5s.data.edges, e.source = i →
      e.target ∈ c5s.data.nodes.map (fun n => n.id)) ∧
    (∃ s1 : TAppState,
      updateApp TEvent.pushImpulsesDownstream c5s = Except.ok s1 ∧
      s1.data.edges = c5s.data.edges ∧
      s1.data.nodes = c5s.data.nodes.map (fun n =>
        { n with value := n.value
            + ((deltaCount c5s.data c5s.impulses n.id EdgeType.increment : ℚ))
            - ((deltaCount c5s.data c5s.impulses n.id EdgeType.decrement : ℚ)) }) ∧
      s1.impulses
        = jsUnique ((c5s.impulses.flatMap (fun i => outgoing c5s.data i)).map (fun e => e.target)) ∧
      ((∀ i ∈ c5s.impulses, outgoing c5s.data i = []) → s1.data = c5s.data ∧ s1.impulses = [])) :=
  ⟨by decide, by decide, by decide,
   C5_push_impulses_step c5s (by decide) (by decide) (by decide)⟩
